import Mathlib

/-!
A shallow embedding of `packages/desktop/src/main/pty-wrapper.py`, a PTY
relay: it forks a shell attached to a pseudo-terminal and relays bytes
between the controlling stdin/stdout and the PTY master, forwarding
SIGINT/SIGTERM to the child.

The relay loop (lines 56-85 of the source) is embedded as a step function
over a schedule of per-iteration OS events: which descriptors `select`
reported ready, what each `os.read`/`os.write` returned or raised, what
`waitpid(child, WNOHANG)` returned, and whether a signal was delivered
while the process was blocked in `select`.  The loop state is the trace of
the syscalls the relay performed (reads observed, writes issued, signals
sent to the child).

CPython semantics that the embedding takes seriously:
* `sys.exit(0)` in a signal handler raises `SystemExit` in the main
  thread, at the point the main thread was executing (for this program:
  inside the `select` call, which is inside the `try` of `main`), so the
  `finally` block — the `tcsetattr` restoring the saved terminal
  attributes — runs before the process exits.
* Python truthiness: `if child_pid:` is false for `None` and for `0`.
* `if data:` on a `bytes` value is false exactly when the read returned
  zero bytes (EOF on a non-blocking descriptor).
-/

namespace PtyWrapper

/-- Signal numbers, as in the `signal` module on Linux. -/
def SIGINT : Nat := 2

/-- Signal number of SIGTERM on Linux. -/
def SIGTERM : Nat := 15

/-- An observable action a signal handler performs: `os.kill(pid, sig)` or
`sys.exit(code)`. -/
inductive Action where
  | kill (pid : Nat) (sig : Nat)
  | exitCall (code : Nat)
deriving DecidableEq, Repr

/-- Embeds `handle_sigint` (source lines 16-19): forward SIGINT to the
child if the `child_pid` global is truthy; the handler returns normally
(no exit action). -/
def handle_sigint : Option Nat → List Action
  | none => []
  | some p => if p ≠ 0 then [Action.kill p SIGINT] else []

/-- Embeds `handle_sigterm` (source lines 21-25): forward SIGTERM to the
child if the `child_pid` global is truthy, then `sys.exit(0)`
(unconditionally). -/
def handle_sigterm : Option Nat → List Action
  | none => [Action.exitCall 0]
  | some p =>
      (if p ≠ 0 then [Action.kill p SIGTERM] else []) ++ [Action.exitCall 0]

/-- Embeds `os.environ.get(key, dflt)` over an association-list model of
the environment (first binding wins, as in a dict). -/
def environGet : List (String × String) → String → String → String
  | [], _, dflt => dflt
  | (k, v) :: rest, key, dflt => if k = key then v else environGet rest key dflt

/-- Embeds line 36: `shell = os.environ.get('SHELL', '/bin/bash')`. -/
def getShell (env : List (String × String)) : String :=
  environGet env "SHELL" "/bin/bash"

/-- Embeds the child branch (lines 41-43): the child replaces its process
image via `os.execvp(shell, [shell, '--login'])`; the returned pair is the
executable resolved on PATH and the argument vector. -/
def childExec (shell : String) : String × List String :=
  (shell, [shell, "--login"])

/-- Result of an `os.read` call on a non-blocking descriptor: either a
byte chunk (possibly empty, meaning EOF) or a raised `OSError`/`IOError`. -/
inductive ReadResult where
  | ok (data : List Nat)
  | err
deriving DecidableEq, Repr

/-- Decidable form of the `os.read(fd, k)` postcondition: a successful
read returns at most `k` bytes. -/
def ReadResult.within (k : Nat) : ReadResult → Bool
  | .ok data => decide (data.length ≤ k)
  | .err => true

/-- Result of an `os.write` call (and, for stdout, the following
`flush`): wrote everything, wrote only the first `n` bytes (the source
ignores the return count, so the rest is silently lost), or raised. -/
inductive WriteResult where
  | complete
  | short (n : Nat)
  | err
deriving DecidableEq, Repr

/-- The bytes a write actually transfers, `none` when the write raised. -/
def writeChunk (data : List Nat) : WriteResult → Option (List Nat)
  | .complete => some data
  | .short n => some (data.take n)
  | .err => none

/-- Result of `os.waitpid(child_pid, os.WNOHANG)`: child still running
(returned pid 0), child exited with a status, or the call raised (caught
by the bare `except` at line 83). -/
inductive WaitResult where
  | running
  | exited (status : Nat)
  | raises
deriving DecidableEq, Repr

/-- A signal delivered to the relay process. -/
inductive Sig where
  | int
  | term
deriving DecidableEq, Repr

/-- The OS events of one iteration of the relay loop: an optional signal
delivered while blocked in `select`, the readiness `select` reported for
stdin and for the PTY master, the outcome of each read and write the
iteration would perform, and the outcome of the `waitpid` check. -/
structure Event where
  sig : Option Sig
  stdinReady : Bool
  stdinRead : ReadResult
  masterWrite : WriteResult
  masterReady : Bool
  masterRead : ReadResult
  stdoutWrite : WriteResult
  wait : WaitResult
deriving DecidableEq, Repr

/-- The trace of syscalls the relay has performed: chunks returned by
reads from stdin, chunks written to the PTY master, chunks returned by
reads from the master, chunks written to stdout, and `(pid, sig)` pairs
sent via `os.kill` from signal handlers. -/
structure LoopState where
  readsStdin : List (List Nat)
  writesMaster : List (List Nat)
  readsMaster : List (List Nat)
  writesStdout : List (List Nat)
  kills : List (Nat × Nat)
deriving DecidableEq, Repr

/-- The empty trace, at loop entry. -/
def LoopState.init : LoopState := ⟨[], [], [], [], []⟩

/-- Why the `while` loop was left. -/
inductive BreakReason where
  | childExited
  | masterErr
  | waitErr
deriving DecidableEq, Repr

/-- Outcome of one loop iteration: continue, `break`, or a `SystemExit`
raised by the SIGTERM handler propagating out of `select`. -/
inductive StepOut where
  | next (st : LoopState)
  | brk (r : BreakReason) (st : LoopState)
  | sysExit (code : Nat) (st : LoopState)
deriving DecidableEq, Repr

/-- Embeds lines 80-84: the non-blocking child-exit check.  `waitpid`
returning a nonzero pid breaks the loop; a raised exception is caught by
the bare `except` and also breaks. -/
def waitStep (e : Event) (st : LoopState) : StepOut :=
  match e.wait with
  | .running => .next st
  | .exited _ => .brk .childExited st
  | .raises => .brk .waitErr st

/-- Embeds lines 69-77: if the master was ready, read from it; on a
nonempty chunk write it to stdout and flush; any `OSError`/`IOError` here
breaks the loop.  Then fall through to the exit check. -/
def masterStep (e : Event) (st : LoopState) : StepOut :=
  if e.masterReady then
    match e.masterRead with
    | .err => .brk .masterErr st
    | .ok data =>
        let st1 := { st with readsMaster := st.readsMaster ++ [data] }
        if data.isEmpty then
          waitStep e st1
        else
          match writeChunk data e.stdoutWrite with
          | none => .brk .masterErr st1
          | some w =>
              waitStep e { st1 with writesStdout := st1.writesStdout ++ [w] }
  else
    waitStep e st

/-- Embeds lines 60-67: if stdin was ready, read from it; on a nonempty
chunk write it to the PTY master; any `OSError`/`IOError` on this path is
swallowed (`except: pass`), so this direction never breaks the loop. -/
def stdinUpdate (e : Event) (st : LoopState) : LoopState :=
  if e.stdinReady then
    match e.stdinRead with
    | .err => st
    | .ok data =>
        let st1 := { st with readsStdin := st.readsStdin ++ [data] }
        if data.isEmpty then
          st1
        else
          match writeChunk data e.masterWrite with
          | none => st1
          | some w => { st1 with writesMaster := st1.writesMaster ++ [w] }
  else
    st

/-- The loop body after `select` (lines 60-85): the stdin direction, then
the master direction, then the exit check. -/
def stdinStep (e : Event) (st : LoopState) : StepOut :=
  masterStep e (stdinUpdate e st)

/-- One iteration of the `while True` loop (lines 56-85) for the parent
whose `child_pid` global is `child`.  A signal delivered during the
`select` call runs the corresponding handler first: SIGTERM kills the
child (if truthy) and raises `SystemExit(0)` out of `select`, ending the
iteration; SIGINT kills the child (if truthy) and returns, after which
`select` resumes and the iteration proceeds. -/
def step (child : Nat) (e : Event) (st : LoopState) : StepOut :=
  match e.sig with
  | some .term =>
      .sysExit 0
        (if child ≠ 0 then { st with kills := st.kills ++ [(child, SIGTERM)] }
         else st)
  | some .int =>
      stdinStep e
        (if child ≠ 0 then { st with kills := st.kills ++ [(child, SIGINT)] }
         else st)
  | none => stdinStep e st

/-- The syscall trace carried by a step outcome. -/
def StepOut.trace : StepOut → LoopState
  | .next st => st
  | .brk _ st => st
  | .sysExit _ st => st

/-- Outcome of running the loop against a finite schedule of events:
left via `break`, left via `SystemExit`, or still running when the
schedule ran out. -/
inductive RunOut where
  | exited (r : BreakReason) (st : LoopState)
  | sysExit (code : Nat) (st : LoopState)
  | pending (st : LoopState)
deriving DecidableEq, Repr

/-- Run the relay loop over a schedule of iteration events. -/
def runLoop (child : Nat) : List Event → LoopState → RunOut
  | [], st => .pending st
  | e :: es, st =>
      match step child e st with
      | .next st' => runLoop child es st'
      | .brk r st' => .exited r st'
      | .sysExit c st' => .sysExit c st'

/-- The syscall trace carried by a run outcome. -/
def RunOut.trace : RunOut → LoopState
  | .exited _ st => st
  | .sysExit _ st => st
  | .pending st => st

/-- The controlling terminal's attribute state: the attributes captured by
`tcgetattr` at startup, or the raw mode `tty.setraw` switched to. -/
inductive TermMode where
  | original
  | raw
deriving DecidableEq, Repr

/-- Observable result of the parent branch of `main` (lines 45-92). -/
structure MainResult where
  trace : LoopState
  termMode : TermMode
  restoreCalls : Nat
  exitCode : Nat
deriving DecidableEq, Repr

/-- Embeds the parent branch of `main` (lines 45-92): save the terminal
attributes (`old_tty`), enter raw mode, run the relay loop, and in the
`finally` block call `tcsetattr(stdin, TCSADRAIN, old_tty)` exactly once,
with its own failure swallowed (`except: pass`, modelled by `restoreOk`).
Both a loop `break` and a `SystemExit` raised by the SIGTERM handler pass
through the `finally`; a `break` falls off `main` (process status 0),
a `SystemExit c` exits the process with status `c`.  `none` when the
schedule is exhausted with the loop still running. -/
def mainParent (child : Nat) (events : List Event) (restoreOk : Bool) :
    Option MainResult :=
  match runLoop child events LoopState.init with
  | .pending _ => none
  | .exited _ st =>
      some ⟨st, if restoreOk then .original else .raw, 1, 0⟩
  | .sysExit c st =>
      some ⟨st, if restoreOk then .original else .raw, 1, c⟩

/-- A concrete iteration with nothing ready, no signal, child running. -/
def evQuiet : Event :=
  ⟨none, false, ReadResult.ok [], WriteResult.complete,
   false, ReadResult.ok [], WriteResult.complete, WaitResult.running⟩

/-- A concrete iteration with nothing ready in which `waitpid` reaps the
child. -/
def evReap : Event := { evQuiet with wait := WaitResult.exited 0 }

/-- A concrete iteration during which SIGTERM is delivered in `select`. -/
def evTerm : Event := { evQuiet with sig := some Sig.term }

/-- A concrete iteration during which SIGINT is delivered in `select`. -/
def evInt : Event := { evQuiet with sig := some Sig.int }

/-- A concrete iteration in which stdin is ready with three bytes. -/
def evStdinData : Event :=
  { evQuiet with stdinReady := true, stdinRead := ReadResult.ok [104, 105, 10] }

/-- A concrete iteration in which the master is ready with two bytes. -/
def evMasterData : Event :=
  { evQuiet with masterReady := true, masterRead := ReadResult.ok [104, 10] }

/-- A concrete iteration in which reading stdin raises (would-block). -/
def evStdinErr : Event :=
  { evQuiet with stdinReady := true, stdinRead := ReadResult.err }

/-- A concrete iteration in which stdin reports end-of-file (zero-byte
read). -/
def evStdinEof : Event :=
  { evQuiet with stdinReady := true, stdinRead := ReadResult.ok [] }

/-- A concrete iteration in which reading the master raises (EIO after
the child side closed). -/
def evMasterErr : Event :=
  { evQuiet with masterReady := true, masterRead := ReadResult.err }

/-- Relay fidelity invariant of the syscall trace: the chunk sequence
written to the PTY master is exactly the subsequence of nonempty chunks
read from stdin (in order, untransformed), symmetrically for the
master-to-stdout direction, and every read chunk respects the 1024-byte
`os.read` cap. -/
def RelayInv (st : LoopState) : Prop :=
  st.writesMaster = st.readsStdin.filter (fun d => !d.isEmpty) ∧
  st.writesStdout = st.readsMaster.filter (fun d => !d.isEmpty) ∧
  (∀ d ∈ st.readsStdin, d.length ≤ 1024) ∧
  (∀ d ∈ st.readsMaster, d.length ≤ 1024)

/-! ### Helper lemmas -/

/-- Unfolding one iteration of the run. -/
theorem runLoop_cons (child : Nat) (e : Event) (es : List Event) (st : LoopState) :
    runLoop child (e :: es) st =
      match step child e st with
      | .next st' => runLoop child es st'
      | .brk r st' => RunOut.exited r st'
      | .sysExit c st' => RunOut.sysExit c st' := rfl

/-- A `next` iteration continues the run on the rest of the schedule. -/
theorem runLoop_next (child : Nat) (e : Event) (es : List Event) (st st' : LoopState)
    (h : step child e st = StepOut.next st') :
    runLoop child (e :: es) st = runLoop child es st' := by
  rw [runLoop_cons, h]

/-- A `break` iteration ends the run. -/
theorem runLoop_brk (child : Nat) (e : Event) (es : List Event) (st : LoopState)
    (r : BreakReason) (st' : LoopState)
    (h : step child e st = StepOut.brk r st') :
    runLoop child (e :: es) st = RunOut.exited r st' := by
  rw [runLoop_cons, h]

/-- The exit check never raises `SystemExit`. -/
theorem waitStep_ne_sysExit (e : Event) (st : LoopState) (c : Nat) (st' : LoopState) :
    waitStep e st ≠ StepOut.sysExit c st' := by
  unfold waitStep
  cases e.wait <;> simp

/-- The master direction never raises `SystemExit`. -/
theorem masterStep_ne_sysExit (e : Event) (st : LoopState) (c : Nat) (st' : LoopState) :
    masterStep e st ≠ StepOut.sysExit c st' := by
  unfold masterStep
  repeat' split
  all_goals first
    | apply waitStep_ne_sysExit
    | simp

/-- The loop body never raises `SystemExit`; only the SIGTERM handler does. -/
theorem stdinStep_ne_sysExit (e : Event) (st : LoopState) (c : Nat) (st' : LoopState) :
    stdinStep e st ≠ StepOut.sysExit c st' := by
  unfold stdinStep
  apply masterStep_ne_sysExit

/-- A `SystemExit` outcome of one iteration comes exactly from a SIGTERM
delivery: the code is 0 and the only state change is the `os.kill` of the
child (when the global is truthy). -/
theorem step_sysExit_inv (child : Nat) (e : Event) (st : LoopState) (c : Nat) (st' : LoopState)
    (h : step child e st = StepOut.sysExit c st') :
    e.sig = some Sig.term ∧ c = 0 ∧
      st' = (if child ≠ 0 then { st with kills := st.kills ++ [(child, SIGTERM)] }
             else st) := by
  unfold step at h
  cases hs : e.sig with
  | none =>
      rw [hs] at h
      exact absurd h (stdinStep_ne_sysExit e st c st')
  | some s =>
      cases s with
      | int =>
          rw [hs] at h
          exact absurd h (stdinStep_ne_sysExit e _ c st')
      | term =>
          rw [hs] at h
          simp only [StepOut.sysExit.injEq] at h
          exact ⟨rfl, h.1.symm, h.2.symm⟩

/-- The last element of a list with a final element appended. -/
theorem getLast_append_single {α : Type} (l : List α) (a : α) :
    (l ++ [a]).getLast? = some a := by
  induction l with
  | nil => rfl
  | cons x xs ih =>
      rw [List.cons_append, List.getLast?_cons, ih]
      cases xs <;> simp [List.getLastD]

/-- A run ending in `SystemExit` carries code 0 and, for a truthy child,
the last signal sent is the SIGTERM forwarded to the child. -/
theorem runLoop_sysExit_inv (child : Nat) (events : List Event) (st0 : LoopState)
    (c : Nat) (st : LoopState)
    (h : runLoop child events st0 = RunOut.sysExit c st) :
    c = 0 ∧ (child ≠ 0 → st.kills.getLast? = some (child, SIGTERM)) := by
  induction events generalizing st0 with
  | nil => simp [runLoop] at h
  | cons e es ih =>
      unfold runLoop at h
      cases hstep : step child e st0 with
      | next st1 =>
          rw [hstep] at h
          exact ih st1 h
      | brk r st1 =>
          rw [hstep] at h
          simp at h
      | sysExit c1 st1 =>
          rw [hstep] at h
          simp only [RunOut.sysExit.injEq] at h
          obtain ⟨hsig, hc, hst⟩ := step_sysExit_inv child e st0 c1 st1 hstep
          refine ⟨by rw [← h.1, hc], ?_⟩
          intro hchild
          rw [← h.2, hst, if_pos hchild]
          exact getLast_append_single st0.kills (child, SIGTERM)

/-- Looking up a key returns the first binding for it. -/
theorem environGet_append_first (pre post : List (String × String)) (key v dflt : String)
    (hpre : ∀ kv ∈ pre, kv.1 ≠ key) :
    environGet (pre ++ (key, v) :: post) key dflt = v := by
  induction pre with
  | nil => simp [environGet]
  | cons kv rest ih =>
      obtain ⟨k, w⟩ := kv
      have hk : k ≠ key := hpre (k, w) (List.mem_cons_self _ _)
      simpa [environGet, hk] using ih (fun kv h => hpre kv (List.mem_cons_of_mem _ h))

/-- Looking up an absent key returns the default. -/
theorem environGet_absent (env : List (String × String)) (key dflt : String)
    (henv : ∀ kv ∈ env, kv.1 ≠ key) :
    environGet env key dflt = dflt := by
  induction env with
  | nil => rfl
  | cons kv rest ih =>
      obtain ⟨k, w⟩ := kv
      have hk : k ≠ key := henv (k, w) (List.mem_cons_self _ _)
      simpa [environGet, hk] using ih (fun kv h => henv kv (List.mem_cons_of_mem _ h))

/-- With the child reported exited by `waitpid` and the master direction
not raising, the loop body breaks with `childExited`. -/
theorem masterStep_child_exited (e : Event) (st : LoopState) (s : Nat)
    (hmaster : e.masterReady = false ∨
      ∃ d, e.masterRead = ReadResult.ok d ∧
        (d.isEmpty = true ∨ e.stdoutWrite ≠ WriteResult.err))
    (hw : e.wait = WaitResult.exited s) :
    ∃ st', masterStep e st = StepOut.brk BreakReason.childExited st' := by
  rcases hmaster with hm | ⟨d, hd, hcase⟩
  · exact ⟨st, by simp [masterStep, waitStep, hm, hw]⟩
  · by_cases hready : e.masterReady = true
    · rcases hcase with he | hwr
      · exact ⟨{ st with readsMaster := st.readsMaster ++ [d] },
          by simp [masterStep, waitStep, hready, hd, he, hw]⟩
      · by_cases he : d.isEmpty = true
        · exact ⟨{ st with readsMaster := st.readsMaster ++ [d] },
            by simp [masterStep, waitStep, hready, hd, he, hw]⟩
        · cases hwrite : e.stdoutWrite with
          | complete =>
              refine ⟨{ st with readsMaster := st.readsMaster ++ [d], writesStdout := st.writesStdout ++ [d] }, ?_⟩
              simp [masterStep, waitStep, writeChunk, hready, hd, he, hwrite, hw]
          | short n =>
              refine ⟨{ st with readsMaster := st.readsMaster ++ [d], writesStdout := st.writesStdout ++ [d.take n] }, ?_⟩
              simp [masterStep, waitStep, writeChunk, hready, hd, he, hwrite, hw]
          | err => exact absurd hwrite hwr
    · exact ⟨st, by simp [masterStep, waitStep, hready, hw]⟩

/-- The exit check breaks with `childExited` unless `waitpid` raised. -/
theorem waitStep_brk_inv (e : Event) (st : LoopState) (r : BreakReason) (st' : LoopState)
    (hnr : e.wait ≠ WaitResult.raises)
    (h : waitStep e st = StepOut.brk r st') : r = BreakReason.childExited := by
  unfold waitStep at h
  cases hw : e.wait with
  | running => rw [hw] at h; simp at h
  | exited s =>
      rw [hw] at h
      injection h with h1 h2
      exact h1.symm
  | raises => exact absurd hw hnr

/-- A `break` of the loop body is a child-exit or a master-direction
error, unless `waitpid` raised. -/
theorem masterStep_brk_inv (e : Event) (st : LoopState) (r : BreakReason) (st' : LoopState)
    (hnr : e.wait ≠ WaitResult.raises)
    (h : masterStep e st = StepOut.brk r st') :
    r = BreakReason.childExited ∨ r = BreakReason.masterErr := by
  unfold masterStep at h
  repeat' split at h
  all_goals first
    | (injection h with h1 h2; exact Or.inr h1.symm)
    | exact Or.inl (waitStep_brk_inv e _ r st' hnr h)

/-- A `break` of one iteration is a child-exit or a master-direction
error, given no SIGTERM delivery and no `waitpid` exception. -/
theorem step_brk_inv (child : Nat) (e : Event) (st : LoopState)
    (r : BreakReason) (st' : LoopState)
    (hterm : e.sig ≠ some Sig.term) (hnr : e.wait ≠ WaitResult.raises)
    (h : step child e st = StepOut.brk r st') :
    r = BreakReason.childExited ∨ r = BreakReason.masterErr := by
  unfold step at h
  cases hs : e.sig with
  | none =>
      rw [hs] at h
      exact masterStep_brk_inv e _ r st' hnr h
  | some s =>
      cases s with
      | term => exact absurd hs hterm
      | int =>
          rw [hs] at h
          exact masterStep_brk_inv e _ r st' hnr h

/-! ### Claims -/

/-- **C7**: on receipt of SIGINT, if a child is registered (truthy global)
the handler delivers SIGINT to that child; the handler never performs an
exit action, and at the loop level a SIGINT delivery never produces the
`SystemExit` outcome (the relay process does not exit from handling it);
with no child registered the handler does nothing. -/
theorem sigint_forwarded_no_exit :
    (∀ p : Nat, p ≠ 0 → handle_sigint (some p) = [Action.kill p SIGINT]) ∧
    handle_sigint none = [] ∧
    (∀ (cp : Option Nat) (c : Nat), Action.exitCall c ∉ handle_sigint cp) ∧
    (∀ (child : Nat) (e : Event) (st : LoopState) (c : Nat) (st' : LoopState),
      e.sig = some Sig.int → step child e st ≠ StepOut.sysExit c st') := by
  refine ⟨?_, rfl, ?_, ?_⟩
  · intro p hp
    simp [handle_sigint, hp]
  · intro cp c
    cases cp with
    | none => simp [handle_sigint]
    | some p => by_cases hp : p = 0 <;> simp [handle_sigint, hp]
  · intro child e st c st' hsig
    unfold step
    rw [hsig]
    apply stdinStep_ne_sysExit

/-- Witness for C7 at a concrete child pid. -/
theorem sigint_forwarded_no_exit_witness :
    (5 : Nat) ≠ 0 ∧ handle_sigint (some 5) = [Action.kill 5 SIGINT] :=
  ⟨by decide, sigint_forwarded_no_exit.1 5 (by decide)⟩

/-- **C8**: the launched shell is the value bound to `SHELL` in the
environment when present, `/bin/bash` otherwise, and the child replaces
its process image with that shell invoked with `--login` (a login
shell). -/
theorem shell_selection_login_exec :
    (∀ (pre post : List (String × String)) (v : String),
      (∀ kv ∈ pre, kv.1 ≠ "SHELL") →
      getShell (pre ++ ("SHELL", v) :: post) = v) ∧
    (∀ env : List (String × String),
      (∀ kv ∈ env, kv.1 ≠ "SHELL") → getShell env = "/bin/bash") ∧
    (∀ s : String, childExec s = (s, [s, "--login"])) := by
  refine ⟨?_, ?_, fun s => rfl⟩
  · intro pre post v hpre
    exact environGet_append_first pre post "SHELL" v "/bin/bash" hpre
  · intro env henv
    exact environGet_absent env "SHELL" "/bin/bash" henv

/-- Witness for C8 at a concrete environment. -/
theorem shell_selection_login_exec_witness :
    getShell [("HOME", "/root"), ("SHELL", "/bin/zsh")] = "/bin/zsh" ∧
    getShell [("HOME", "/root")] = "/bin/bash" :=
  ⟨shell_selection_login_exec.1 [("HOME", "/root")] [] "/bin/zsh"
      (by intro kv h; fin_cases h; decide),
   shell_selection_login_exec.2.1 [("HOME", "/root")]
      (by intro kv h; fin_cases h; decide)⟩

/-- **C9**: a zero-byte (EOF) read from stdin writes nothing to the PTY
master and does not terminate the loop: the iteration ends in `next` with
only the read recorded, and the run continues with the remaining
schedule. -/
theorem stdin_eof_not_exit (child : Nat) (e : Event) (es : List Event) (st : LoopState)
    (hsig : e.sig = none) (hr : e.stdinReady = true)
    (hd : e.stdinRead = ReadResult.ok [])
    (hm : e.masterReady = false) (hw : e.wait = WaitResult.running) :
    step child e st = StepOut.next { st with readsStdin := st.readsStdin ++ [[]] } ∧
    runLoop child (e :: es) st =
      runLoop child es { st with readsStdin := st.readsStdin ++ [[]] } := by
  have hstep : step child e st =
      StepOut.next { st with readsStdin := st.readsStdin ++ [[]] } := by
    simp [step, stdinStep, stdinUpdate, masterStep, waitStep, hsig, hr, hd, hm, hw]
  exact ⟨hstep, runLoop_next child e es st _ hstep⟩

/-- Witness for C9 at a concrete EOF iteration. -/
theorem stdin_eof_not_exit_witness :
    evStdinEof.stdinRead = ReadResult.ok [] ∧
    step 5 evStdinEof LoopState.init =
      StepOut.next { LoopState.init with readsStdin := [[]] } :=
  ⟨by decide,
   by
    have h := stdin_eof_not_exit 5 evStdinEof [] LoopState.init
      (by decide) (by decide) (by decide) (by decide) (by decide)
    simpa using h.1⟩

/-- **C6**: an `OSError`/`IOError` on the stdin direction — the read
raising, or the write of a nonempty chunk to the PTY master raising — is
swallowed: the iteration ends in `next`, nothing is written to the
master, and the run continues with the remaining schedule. -/
theorem stdin_errors_swallowed (child : Nat) (e : Event) (es : List Event) (st : LoopState)
    (hsig : e.sig = none) (hr : e.stdinReady = true)
    (herr : e.stdinRead = ReadResult.err ∨
      ∃ d, e.stdinRead = ReadResult.ok d ∧ d.isEmpty = false ∧
        e.masterWrite = WriteResult.err)
    (hm : e.masterReady = false) (hw : e.wait = WaitResult.running) :
    ∃ st', step child e st = StepOut.next st' ∧
      st'.writesMaster = st.writesMaster ∧
      runLoop child (e :: es) st = runLoop child es st' := by
  rcases herr with hread | ⟨d, hread, hne, hwrite⟩
  · have hstep : step child e st = StepOut.next st := by
      simp [step, stdinStep, stdinUpdate, masterStep, waitStep, hsig, hr, hread, hm, hw]
    exact ⟨st, hstep, rfl, runLoop_next child e es st st hstep⟩
  · have hstep : step child e st =
        StepOut.next { st with readsStdin := st.readsStdin ++ [d] } := by
      simp [step, stdinStep, stdinUpdate, masterStep, waitStep, writeChunk,
        hsig, hr, hread, hne, hwrite, hm, hw]
    exact ⟨{ st with readsStdin := st.readsStdin ++ [d] }, hstep, rfl,
      runLoop_next child e es st _ hstep⟩

/-- **C4**: with no SIGTERM delivery and the master direction not
raising, an iteration whose non-blocking `waitpid` reports the child
exited terminates the run at that very iteration with `childExited`,
regardless of stdin readiness or activity; in particular an iteration
with no ready I/O at all does so, which is why a child exit with no
pending I/O is detected within one bounded `select` timeout. -/
theorem exit_detected_within_iteration (child : Nat) (e : Event) (es : List Event)
    (st : LoopState) (s : Nat)
    (hsig : e.sig = none)
    (hmaster : e.masterReady = false ∨
      ∃ d, e.masterRead = ReadResult.ok d ∧
        (d.isEmpty = true ∨ e.stdoutWrite ≠ WriteResult.err))
    (hw : e.wait = WaitResult.exited s) :
    ∃ st', runLoop child (e :: es) st = RunOut.exited BreakReason.childExited st' := by
  obtain ⟨st', hms⟩ := masterStep_child_exited e (stdinUpdate e st) s hmaster hw
  have hstep : step child e st = StepOut.brk BreakReason.childExited st' := by
    simp only [step, hsig]
    exact hms
  exact ⟨st', runLoop_brk child e es st _ st' hstep⟩

/-- Witness for C4 at a concrete iteration with no ready I/O in which the
child is reaped. -/
theorem exit_detected_within_iteration_witness :
    evReap.sig = none ∧ evReap.masterReady = false ∧
    evReap.wait = WaitResult.exited 0 ∧
    ∃ st', runLoop 5 [evReap] LoopState.init = RunOut.exited BreakReason.childExited st' :=
  ⟨by decide, by decide, by decide,
   exit_detected_within_iteration 5 evReap [] LoopState.init 0 (by decide)
     (Or.inl (by decide)) (by decide)⟩

/-- **C5**: an `OSError`/`IOError` while reading from the PTY master, or
while writing the read bytes to stdout, breaks the loop with `masterErr`
(the error is the termination trigger, not swallowed); and absent SIGTERM
deliveries and `waitpid` exceptions, a run can only exit with
`childExited` (child reaped) or `masterErr` (master direction failed). -/
theorem loop_exit_conditions :
    (∀ (child : Nat) (e : Event) (es : List Event) (st : LoopState),
      e.sig = none → e.masterReady = true →
      (e.masterRead = ReadResult.err ∨
        ∃ d, e.masterRead = ReadResult.ok d ∧ d.isEmpty = false ∧
          e.stdoutWrite = WriteResult.err) →
      ∃ st', runLoop child (e :: es) st = RunOut.exited BreakReason.masterErr st') ∧
    (∀ (child : Nat) (events : List Event) (st0 st : LoopState) (r : BreakReason),
      (∀ e ∈ events, e.sig ≠ some Sig.term ∧ e.wait ≠ WaitResult.raises) →
      runLoop child events st0 = RunOut.exited r st →
      r = BreakReason.childExited ∨ r = BreakReason.masterErr) := by
  constructor
  · intro child e es st hsig hready herr
    have hms : ∃ st', masterStep e (stdinUpdate e st) = StepOut.brk BreakReason.masterErr st' := by
      rcases herr with hre | ⟨d, hd, hne, hwr⟩
      · exact ⟨stdinUpdate e st, by simp [masterStep, hready, hre]⟩
      · refine ⟨{ stdinUpdate e st with readsMaster := (stdinUpdate e st).readsMaster ++ [d] }, ?_⟩
        simp [masterStep, writeChunk, hready, hd, hne, hwr]
    obtain ⟨st', hms⟩ := hms
    have hstep : step child e st = StepOut.brk BreakReason.masterErr st' := by
      simp only [step, hsig]
      exact hms
    exact ⟨st', runLoop_brk child e es st _ st' hstep⟩
  · intro child events
    induction events with
    | nil =>
        intro st0 st r _ h
        simp [runLoop] at h
    | cons e es ih =>
        intro st0 st r hev h
        rw [runLoop_cons] at h
        cases hstep : step child e st0 with
        | next st1 =>
            rw [hstep] at h
            exact ih st1 st r (fun e' he' => hev e' (List.mem_cons_of_mem _ he')) h
        | brk r1 st1 =>
            rw [hstep] at h
            injection h with h1 h2
            have hmem := hev e (List.mem_cons_self _ _)
            have := step_brk_inv child e st0 r1 st1 hmem.1 hmem.2 hstep
            rw [h1] at this
            exact this
        | sysExit c st1 =>
            rw [hstep] at h
            simp at h

/-- Witness for C5 at a concrete iteration in which the master read
raises. -/
theorem loop_exit_conditions_witness :
    evMasterErr.masterRead = ReadResult.err ∧
    ∃ st', runLoop 5 [evMasterErr] LoopState.init = RunOut.exited BreakReason.masterErr st' :=
  ⟨by decide,
   loop_exit_conditions.1 5 evMasterErr [] LoopState.init (by decide) (by decide)
     (Or.inl (by decide))⟩

/-- **C3**: whenever the relay loop exits via `break` — the normal
child-exit path, which is also how the interrupt path ends, or an I/O
error path — the `finally` block runs: `tcsetattr` with the saved
attributes is called exactly once, the terminal is back to its original
attributes when the call succeeds, and a failing restoration is
suppressed (the process still exits normally, with the same status). -/
theorem restore_on_loop_exit (child : Nat) (events : List Event) (restoreOk : Bool)
    (r : BreakReason) (st : LoopState)
    (h : runLoop child events LoopState.init = RunOut.exited r st) :
    ∃ res : MainResult, mainParent child events restoreOk = some res ∧
      res.trace = st ∧ res.restoreCalls = 1 ∧ res.exitCode = 0 ∧
      (restoreOk = true → res.termMode = TermMode.original) ∧
      (restoreOk = false → res.termMode = TermMode.raw) := by
  refine ⟨⟨st, if restoreOk then TermMode.original else TermMode.raw, 1, 0⟩,
    ?_, rfl, rfl, rfl, ?_, ?_⟩
  · unfold mainParent
    rw [h]
  · intro hrestore
    simp [hrestore]
  · intro hrestore
    simp [hrestore]

/-- Witness for C3 at a concrete reaping run. -/
theorem restore_on_loop_exit_witness :
    runLoop 5 [evReap] LoopState.init = RunOut.exited BreakReason.childExited LoopState.init ∧
    ∃ res : MainResult, mainParent 5 [evReap] true = some res ∧
      res.trace = LoopState.init ∧ res.restoreCalls = 1 ∧ res.exitCode = 0 ∧
      (true = true → res.termMode = TermMode.original) ∧
      (true = false → res.termMode = TermMode.raw) :=
  ⟨by decide,
   restore_on_loop_exit 5 [evReap] true BreakReason.childExited LoopState.init (by decide)⟩

/-- **C10**: the SIGTERM path exits the process with status 0 — the
handler's `SystemExit` always carries 0 — and every exit of the parent
branch, the normal child-exit path included, has status 0, so the host
cannot distinguish the two by exit status. -/
theorem exit_status_zero_both_paths :
    (∀ (child : Nat) (events : List Event) (st0 st : LoopState) (c : Nat),
      runLoop child events st0 = RunOut.sysExit c st → c = 0) ∧
    (∀ (child : Nat) (events : List Event) (restoreOk : Bool) (res : MainResult),
      mainParent child events restoreOk = some res → res.exitCode = 0) := by
  constructor
  · intro child events st0 st c h
    exact (runLoop_sysExit_inv child events st0 c st h).1
  · intro child events restoreOk res h
    unfold mainParent at h
    cases hrun : runLoop child events LoopState.init with
    | pending st =>
        rw [hrun] at h
        simp at h
    | exited r st =>
        rw [hrun] at h
        injection h with h1
        rw [← h1]
    | sysExit c st =>
        rw [hrun] at h
        injection h with h1
        rw [← h1]
        exact (runLoop_sysExit_inv child events LoopState.init c st hrun).1

/-- Witness for C10 at a concrete reaping run. -/
theorem exit_status_zero_both_paths_witness :
    mainParent 5 [evReap] true = some ⟨LoopState.init, TermMode.original, 1, 0⟩ ∧
    (⟨LoopState.init, TermMode.original, 1, 0⟩ : MainResult).exitCode = 0 :=
  ⟨by decide,
   exit_status_zero_both_paths.2 5 [evReap] true
     ⟨LoopState.init, TermMode.original, 1, 0⟩ (by decide)⟩

/-- **C1 counterexample**: the claim says a SIGTERM received while a
child is registered makes the process exit bypassing cleanup, with the
saved terminal attributes NOT restored.  In CPython, `sys.exit(0)` in the
handler raises `SystemExit` inside the `try` of `main`, so the `finally`
runs `tcsetattr`: at this concrete input (child pid 5, SIGTERM delivered
during the first `select`, restoration succeeding), the child does get
SIGTERM and the process does exit with status 0, but the terminal
attributes ARE restored to the saved ones. -/
theorem sigterm_skip_restore_refuted :
    mainParent 5 [evTerm] true =
      some ⟨⟨[], [], [], [], [(5, 15)]⟩, TermMode.original, 1, 0⟩ := by
  decide

/-- **C1 (amended)**: when SIGTERM is received while a child is
registered, the handler delivers SIGTERM to the child (the last signal
sent) and the process exits with status 0 via `SystemExit`; the exit
unwinds through the relay loop's `try`/`finally`, so the saved terminal
attributes ARE restored (restoration attempted exactly once, and the
terminal is back to its original attributes when `tcsetattr` succeeds). -/
theorem sigterm_forwards_and_restores (child : Nat) (events : List Event)
    (restoreOk : Bool) (c : Nat) (st : LoopState)
    (hchild : child ≠ 0)
    (hrun : runLoop child events LoopState.init = RunOut.sysExit c st) :
    c = 0 ∧ st.kills.getLast? = some (child, SIGTERM) ∧
    mainParent child events restoreOk =
      some ⟨st, if restoreOk then TermMode.original else TermMode.raw, 1, 0⟩ := by
  obtain ⟨hc, hk⟩ := runLoop_sysExit_inv child events LoopState.init c st hrun
  subst hc
  refine ⟨rfl, hk hchild, ?_⟩
  unfold mainParent
  rw [hrun]

/-- Witness for the amended C1 at a concrete SIGTERM delivery. -/
theorem sigterm_forwards_and_restores_witness :
    (5 : Nat) ≠ 0 ∧
    ((0 : Nat) = 0 ∧
      (⟨[], [], [], [], [(5, 15)]⟩ : LoopState).kills.getLast? = some (5, SIGTERM) ∧
      mainParent 5 [evTerm] true =
        some ⟨⟨[], [], [], [], [(5, 15)]⟩, if true then TermMode.original else TermMode.raw, 1, 0⟩) :=
  ⟨by decide,
   sigterm_forwards_and_restores 5 [evTerm] true 0 ⟨[], [], [], [], [(5, 15)]⟩
     (by decide) (by decide)⟩

/-- Witness for C6 at a concrete would-block read. -/
theorem stdin_errors_swallowed_witness :
    evStdinErr.stdinRead = ReadResult.err ∧
    ∃ st', step 5 evStdinErr LoopState.init = StepOut.next st' ∧
      st'.writesMaster = LoopState.init.writesMaster ∧
      runLoop 5 [evStdinErr] LoopState.init = runLoop 5 [] st' :=
  ⟨by decide,
   stdin_errors_swallowed 5 evStdinErr [] LoopState.init
     (by decide) (by decide) (Or.inl (by decide)) (by decide) (by decide)⟩

/-- The exit check never changes the trace. -/
theorem waitStep_trace (e : Event) (st : LoopState) :
    (waitStep e st).trace = st := by
  unfold waitStep
  cases e.wait <;> rfl

/-- Trace effect of the stdin direction with a completing master write:
some list of chunks (none, or the one read) is appended to the stdin
reads, its nonempty chunks are appended to the master writes, everything
else is untouched, and each appended chunk is what the read returned. -/
theorem stdinUpdate_trace (e : Event) (st : LoopState)
    (hw : e.masterWrite = WriteResult.complete) :
    ∃ ds : List (List Nat),
      (stdinUpdate e st).readsStdin = st.readsStdin ++ ds ∧
      (stdinUpdate e st).writesMaster =
        st.writesMaster ++ ds.filter (fun d => !d.isEmpty) ∧
      (stdinUpdate e st).readsMaster = st.readsMaster ∧
      (stdinUpdate e st).writesStdout = st.writesStdout ∧
      (stdinUpdate e st).kills = st.kills ∧
      (∀ d ∈ ds, e.stdinRead = ReadResult.ok d) := by
  by_cases hr : e.stdinReady = true
  · cases hd : e.stdinRead with
    | err =>
        refine ⟨[], ?_⟩
        simp [stdinUpdate, hr, hd]
    | ok data =>
        by_cases he : data.isEmpty = true
        · refine ⟨[data], ?_⟩
          simp [stdinUpdate, hr, hd, he]
        · refine ⟨[data], ?_⟩
          simp [stdinUpdate, writeChunk, hr, hd, he, hw]
  · refine ⟨[], ?_⟩
    simp [stdinUpdate, hr]

/-- Trace effect of the master direction with a completing stdout write,
over every outcome (continue or break). -/
theorem masterStep_trace (e : Event) (st : LoopState)
    (hw : e.stdoutWrite = WriteResult.complete) :
    ∃ ds : List (List Nat),
      ((masterStep e st).trace).readsMaster = st.readsMaster ++ ds ∧
      ((masterStep e st).trace).writesStdout =
        st.writesStdout ++ ds.filter (fun d => !d.isEmpty) ∧
      ((masterStep e st).trace).readsStdin = st.readsStdin ∧
      ((masterStep e st).trace).writesMaster = st.writesMaster ∧
      ((masterStep e st).trace).kills = st.kills ∧
      (∀ d ∈ ds, e.masterRead = ReadResult.ok d) := by
  by_cases hr : e.masterReady = true
  · cases hd : e.masterRead with
    | err =>
        refine ⟨[], ?_⟩
        simp [masterStep, StepOut.trace, hr, hd]
    | ok data =>
        by_cases he : data.isEmpty = true
        · refine ⟨[data], ?_⟩
          simp [masterStep, hr, hd, he, waitStep_trace]
        · refine ⟨[data], ?_⟩
          simp [masterStep, writeChunk, hr, hd, he, hw, waitStep_trace]
  · refine ⟨[], ?_⟩
    simp [masterStep, hr, waitStep_trace]

/-- Trace effect of a full iteration with completing relay writes. -/
theorem step_trace (child : Nat) (e : Event) (st : LoopState)
    (h1 : e.masterWrite = WriteResult.complete)
    (h2 : e.stdoutWrite = WriteResult.complete) :
    ∃ ds1 ds2 : List (List Nat),
      ((step child e st).trace).readsStdin = st.readsStdin ++ ds1 ∧
      ((step child e st).trace).writesMaster =
        st.writesMaster ++ ds1.filter (fun d => !d.isEmpty) ∧
      ((step child e st).trace).readsMaster = st.readsMaster ++ ds2 ∧
      ((step child e st).trace).writesStdout =
        st.writesStdout ++ ds2.filter (fun d => !d.isEmpty) ∧
      (∀ d ∈ ds1, e.stdinRead = ReadResult.ok d) ∧
      (∀ d ∈ ds2, e.masterRead = ReadResult.ok d) := by
  cases hs : e.sig with
  | none =>
      have hstep : step child e st = masterStep e (stdinUpdate e st) := by
        simp only [step, hs]
        rfl
      obtain ⟨ds1, u1, u2, u3, u4, _, u6⟩ := stdinUpdate_trace e st h1
      obtain ⟨ds2, m1, m2, m3, m4, _, m6⟩ := masterStep_trace e (stdinUpdate e st) h2
      refine ⟨ds1, ds2, ?_, ?_, ?_, ?_, u6, m6⟩
      · rw [hstep, m3, u1]
      · rw [hstep, m4, u2]
      · rw [hstep, m1, u3]
      · rw [hstep, m2, u4]
  | some s =>
      cases s with
      | int =>
          by_cases hc : child ≠ 0
          · have hstep : step child e st =
                masterStep e (stdinUpdate e { st with kills := st.kills ++ [(child, SIGINT)] }) := by
              simp only [step, hs, if_pos hc]
              rfl
            obtain ⟨ds1, u1, u2, u3, u4, _, u6⟩ :=
              stdinUpdate_trace e { st with kills := st.kills ++ [(child, SIGINT)] } h1
            obtain ⟨ds2, m1, m2, m3, m4, _, m6⟩ :=
              masterStep_trace e (stdinUpdate e { st with kills := st.kills ++ [(child, SIGINT)] }) h2
            refine ⟨ds1, ds2, ?_, ?_, ?_, ?_, u6, m6⟩
            · rw [hstep, m3, u1]
            · rw [hstep, m4, u2]
            · rw [hstep, m1, u3]
            · rw [hstep, m2, u4]
          · have hstep : step child e st = masterStep e (stdinUpdate e st) := by
              simp only [step, hs, if_neg hc]
              rfl
            obtain ⟨ds1, u1, u2, u3, u4, _, u6⟩ := stdinUpdate_trace e st h1
            obtain ⟨ds2, m1, m2, m3, m4, _, m6⟩ := masterStep_trace e (stdinUpdate e st) h2
            refine ⟨ds1, ds2, ?_, ?_, ?_, ?_, u6, m6⟩
            · rw [hstep, m3, u1]
            · rw [hstep, m4, u2]
            · rw [hstep, m1, u3]
            · rw [hstep, m2, u4]
      | term =>
          refine ⟨[], [], ?_, ?_, ?_, ?_, by simp, by simp⟩ <;>
            by_cases hc : child ≠ 0 <;>
              simp [step, StepOut.trace, hs, hc]

/-- The relay invariant holds along any run whose relay writes complete
and whose reads respect the `os.read` cap. -/
theorem runLoop_relayInv (child : Nat) (events : List Event) (st0 : LoopState)
    (hev : ∀ e ∈ events, e.masterWrite = WriteResult.complete ∧
      e.stdoutWrite = WriteResult.complete ∧
      e.stdinRead.within 1024 = true ∧ e.masterRead.within 1024 = true)
    (h0 : RelayInv st0) :
    RelayInv ((runLoop child events st0).trace) := by
  induction events generalizing st0 with
  | nil => exact h0
  | cons e es ih =>
      obtain ⟨hmw, hsw, hsb, hmb⟩ := hev e (List.mem_cons_self _ _)
      obtain ⟨ds1, ds2, hr1, hw1, hr2, hw2, hd1, hd2⟩ := step_trace child e st0 hmw hsw
      obtain ⟨i1, i2, i3, i4⟩ := h0
      have hnext : RelayInv ((step child e st0).trace) := by
        refine ⟨?_, ?_, ?_, ?_⟩
        · rw [hw1, hr1, List.filter_append, i1]
        · rw [hw2, hr2, List.filter_append, i2]
        · intro d hd
          rw [hr1] at hd
          rcases List.mem_append.mp hd with h | h
          · exact i3 d h
          · have hoc := hd1 d h
            rw [hoc] at hsb
            simpa [ReadResult.within] using hsb
        · intro d hd
          rw [hr2] at hd
          rcases List.mem_append.mp hd with h | h
          · exact i4 d h
          · have hoc := hd2 d h
            rw [hoc] at hmb
            simpa [ReadResult.within] using hmb
      rw [runLoop_cons]
      cases hstep : step child e st0 with
      | next st1 =>
          rw [hstep] at hnext
          exact ih st1 (fun e' he' => hev e' (List.mem_cons_of_mem _ he')) hnext
      | brk r st1 =>
          rw [hstep] at hnext
          exact hnext
      | sysExit c st1 =>
          rw [hstep] at hnext
          exact hnext

/-- Concatenating the nonempty chunks concatenates everything. -/
theorem flatten_filter_nonempty (l : List (List Nat)) :
    (l.filter (fun d => !d.isEmpty)).flatten = l.flatten := by
  induction l with
  | nil => rfl
  | cons a t ih =>
      cases a with
      | nil => simpa using ih
      | cons x xs => simp [List.filter_cons, ih]

/-- **C2**: along any run whose writes to the PTY master and to stdout
complete (the child alive and reading, stdout accepting — the conditions
of the claim) and whose reads respect the 1024-byte `os.read` cap, the
chunk sequence written to the PTY master is exactly the sequence of
nonempty chunks read from stdin, in order — never reordered, duplicated,
transformed, or dropped — so the two byte streams are equal; each written
chunk is at most 1024 bytes; and symmetrically for the master-to-stdout
direction. -/
theorem relay_passthrough_fidelity (child : Nat) (events : List Event)
    (hev : ∀ e ∈ events, e.masterWrite = WriteResult.complete ∧
      e.stdoutWrite = WriteResult.complete ∧
      e.stdinRead.within 1024 = true ∧ e.masterRead.within 1024 = true) :
    ((runLoop child events LoopState.init).trace).writesMaster =
      ((runLoop child events LoopState.init).trace).readsStdin.filter
        (fun d => !d.isEmpty) ∧
    ((runLoop child events LoopState.init).trace).writesStdout =
      ((runLoop child events LoopState.init).trace).readsMaster.filter
        (fun d => !d.isEmpty) ∧
    ((runLoop child events LoopState.init).trace).writesMaster.flatten =
      ((runLoop child events LoopState.init).trace).readsStdin.flatten ∧
    ((runLoop child events LoopState.init).trace).writesStdout.flatten =
      ((runLoop child events LoopState.init).trace).readsMaster.flatten ∧
    (∀ d ∈ ((runLoop child events LoopState.init).trace).writesMaster,
      d.length ≤ 1024) ∧
    (∀ d ∈ ((runLoop child events LoopState.init).trace).writesStdout,
      d.length ≤ 1024) := by
  have h0 : RelayInv LoopState.init := by
    refine ⟨rfl, rfl, ?_, ?_⟩ <;> simp [LoopState.init]
  obtain ⟨i1, i2, i3, i4⟩ := runLoop_relayInv child events LoopState.init hev h0
  refine ⟨i1, i2, ?_, ?_, ?_, ?_⟩
  · rw [i1, flatten_filter_nonempty]
  · rw [i2, flatten_filter_nonempty]
  · intro d hd
    rw [i1] at hd
    exact i3 d (List.mem_of_mem_filter hd)
  · intro d hd
    rw [i2] at hd
    exact i4 d (List.mem_of_mem_filter hd)

/-- Witness for C2 at a concrete three-iteration run: stdin delivers
three bytes, the master delivers two, then the child is reaped. -/
theorem relay_passthrough_fidelity_witness :
    (∀ e ∈ [evStdinData, evMasterData, evReap],
      e.masterWrite = WriteResult.complete ∧
      e.stdoutWrite = WriteResult.complete ∧
      e.stdinRead.within 1024 = true ∧ e.masterRead.within 1024 = true) ∧
    ((runLoop 5 [evStdinData, evMasterData, evReap] LoopState.init).trace).writesMaster.flatten =
      ((runLoop 5 [evStdinData, evMasterData, evReap] LoopState.init).trace).readsStdin.flatten :=
  ⟨by decide,
   (relay_passthrough_fidelity 5 [evStdinData, evMasterData, evReap] (by decide)).2.2.1⟩

end PtyWrapper
